import Mathlib

/-!
Verification of the PySAT spectral utilities (libpysat).

This file gives a shallow embedding, over the rationals, of the continuum
correction and wavelength-resolution routines of `libpysat/utils/utils.py`
and the container plumbing of `libpysat/spectral/spectra.py`, together with
theorems settling the specification claims about them.
-/

set_option maxRecDepth 20000

attribute [local semireducible] Rat.add Rat.mul Rat.sub Rat.inv

deriving instance DecidableEq for Except

namespace PySAT

/-- Python exception kinds that the embedded code can raise. -/
inductive PyErr where
  | indexError
  | valueError
  | keyError
  deriving DecidableEq, Repr

/-- One step of Python's `min(..., key=f)` over indices: the current best index is
replaced only when the new candidate's key is strictly smaller, so the first
index attaining the minimum key wins. -/
def minStep (f : ℕ → ℚ) (best i : ℕ) : ℕ := if f i < f best then i else best

/-- `min(range(n), key=f)` as a left fold.  For `n = 0` Python raises `ValueError`;
callers guard that case, and the fold then returns the junk value `0`. -/
def pyMinRange (f : ℕ → ℚ) (n : ℕ) : ℕ := (List.range n).foldl (minStep f) 0

/-- Embedding of `getbandnumbers(wavelengths, wave_values)` from
`libpysat/utils/utils.py`: for each requested value, the index of the nearest
wavelength, computed by
`min(range(len(wavelengths)), key=lambda i: abs(wavelengths[i]-x))`.
Meaningful only for a non-empty wavelength list (Python raises `ValueError`
otherwise); the caller in `linear_correction` is embedded with that guard. -/
def getbandnumbers (wavelengths wave_values : List ℚ) : List ℕ :=
  wave_values.map (fun x => pyMinRange (fun i => |wavelengths.getD i 0 - x|) wavelengths.length)

/-- Embedding of `getnearest(iterable, value)` from `libpysat/utils/utils.py`:
`min(enumerate(iterable), key=lambda i: abs(i[1] - value))`, i.e. the first
enumerated `(index, element)` pair whose element is nearest to `value`.
Python raises `ValueError` on an empty iterable; the embedding returns `none`. -/
def getnearest (iterable : List ℚ) (value : ℚ) : Option (ℕ × ℚ) :=
  match iterable.enum with
  | [] => none
  | p :: ps =>
    some (ps.foldl (fun best q => if |q.2 - value| < |best.2 - value| then q else best) p)

/-! ### Characterisation of the first-minimum fold -/

theorem pyMinRange_succ (f : ℕ → ℚ) (n : ℕ) :
    pyMinRange f (n + 1) = minStep f (pyMinRange f n) n := by
  simp [pyMinRange, List.range_succ]

theorem pyMinRange_spec (f : ℕ → ℚ) (n : ℕ) (hn : 0 < n) :
    pyMinRange f n < n ∧
      (∀ i < n, f (pyMinRange f n) ≤ f i) ∧
      (∀ j < pyMinRange f n, f (pyMinRange f n) < f j) := by
  induction n with
  | zero => exact absurd hn (by omega)
  | succ n ih =>
    rcases Nat.eq_zero_or_pos n with h0 | hpos
    · subst h0
      have h1 : pyMinRange f 1 = 0 := by
        rw [pyMinRange_succ]
        simp [pyMinRange, minStep]
      rw [h1]
      refine ⟨by omega, ?_, by omega⟩
      intro i hi
      interval_cases i
      exact le_refl _
    · obtain ⟨h1, h2, h3⟩ := ih hpos
      rw [pyMinRange_succ]
      unfold minStep
      split
      case isTrue hlt =>
        refine ⟨by omega, ?_, ?_⟩
        · intro i hi
          rcases Nat.lt_succ_iff_lt_or_eq.mp hi with hi' | hi'
          · exact le_of_lt (lt_of_lt_of_le hlt (h2 i hi'))
          · subst hi'; exact le_refl _
        · intro j hj
          exact lt_of_lt_of_le hlt (h2 j hj)
      case isFalse hge =>
        refine ⟨by omega, ?_, h3⟩
        intro i hi
        rcases Nat.lt_succ_iff_lt_or_eq.mp hi with hi' | hi'
        · exact h2 i hi'
        · subst hi'; exact le_of_not_lt hge

/-- C1: getbandnumbers returns one position per target, in target order and without
deduplication; each returned position minimizes the absolute distance to its target
over the whole wavelength list, ties going to the lowest position.  Determinism is
immediate since the embedding is a function of its arguments. -/
theorem getbandnumbers_nearest_first (wavelengths targets : List ℚ)
    (h : wavelengths ≠ []) :
    (getbandnumbers wavelengths targets).length = targets.length ∧
    ∀ j < targets.length,
      (getbandnumbers wavelengths targets).getD j 0 < wavelengths.length ∧
      (∀ i < wavelengths.length,
        |wavelengths.getD ((getbandnumbers wavelengths targets).getD j 0) 0 - targets.getD j 0| ≤
          |wavelengths.getD i 0 - targets.getD j 0|) ∧
      (∀ q < (getbandnumbers wavelengths targets).getD j 0,
        |wavelengths.getD ((getbandnumbers wavelengths targets).getD j 0) 0 - targets.getD j 0| <
          |wavelengths.getD q 0 - targets.getD j 0|) := by
  have hlen : 0 < wavelengths.length := List.length_pos.mpr h
  constructor
  · simp [getbandnumbers]
  · intro j hj
    have hget : (getbandnumbers wavelengths targets).getD j 0 =
        pyMinRange (fun i => |wavelengths.getD i 0 - targets.getD j 0|) wavelengths.length := by
      unfold getbandnumbers
      rw [List.getD_eq_getElem?_getD, List.getElem?_map]
      have : targets[j]? = some (targets.getD j 0) := by
        rw [List.getD_eq_getElem?_getD]
        cases hx : targets[j]? with
        | none => exact absurd (List.getElem?_eq_none_iff.mp hx) (by omega)
        | some v => simp
      rw [this]
      simp
    rw [hget]
    obtain ⟨ha, hb, hc⟩ :=
      pyMinRange_spec (fun i => |wavelengths.getD i 0 - targets.getD j 0|) wavelengths.length hlen
    exact ⟨ha, hb, hc⟩

theorem getbandnumbers_nearest_first_witness :
    (([400, 450, 500, 550, 600] : List ℚ) ≠ []) ∧
    getbandnumbers [400, 450, 500, 550, 600] [470, 470, 560] = [1, 1, 3] ∧
    ((getbandnumbers [400, 450, 500, 550, 600] [470, 470, 560]).length =
        ([470, 470, 560] : List ℚ).length ∧
    ∀ j < ([470, 470, 560] : List ℚ).length,
      (getbandnumbers [400, 450, 500, 550, 600] [470, 470, 560]).getD j 0 <
          ([400, 450, 500, 550, 600] : List ℚ).length ∧
      (∀ i < ([400, 450, 500, 550, 600] : List ℚ).length,
        |([400, 450, 500, 550, 600] : List ℚ).getD
            ((getbandnumbers [400, 450, 500, 550, 600] [470, 470, 560]).getD j 0) 0 -
            ([470, 470, 560] : List ℚ).getD j 0| ≤
          |([400, 450, 500, 550, 600] : List ℚ).getD i 0 - ([470, 470, 560] : List ℚ).getD j 0|) ∧
      (∀ q < (getbandnumbers [400, 450, 500, 550, 600] [470, 470, 560]).getD j 0,
        |([400, 450, 500, 550, 600] : List ℚ).getD
            ((getbandnumbers [400, 450, 500, 550, 600] [470, 470, 560]).getD j 0) 0 -
            ([470, 470, 560] : List ℚ).getD j 0| <
          |([400, 450, 500, 550, 600] : List ℚ).getD q 0 - ([470, 470, 560] : List ℚ).getD j 0|)) :=
  ⟨by decide, by decide,
    getbandnumbers_nearest_first [400, 450, 500, 550, 600] [470, 470, 560] (by decide)⟩

/-! ### getnearest (C10) -/

theorem enum_eq_map_range (l : List ℚ) :
    l.enum = (List.range l.length).map (fun i => (i, l.getD i 0)) := by
  apply List.ext_getElem?
  intro n
  rw [List.getElem?_enum, List.getElem?_map]
  by_cases hn : n < l.length
  · rw [List.getElem?_range hn]
    have hsome : l[n]? = some (l.getD n 0) := by
      rw [List.getD_eq_getElem?_getD]
      cases hx : l[n]? with
      | none => exact absurd (List.getElem?_eq_none_iff.mp hx) (by omega)
      | some v => simp
    rw [hsome]
    simp
  · have h1 : l[n]? = none := List.getElem?_eq_none (by omega)
    have h2 : (List.range l.length)[n]? = none := by
      apply List.getElem?_eq_none
      simp only [List.length_range]
      omega
    rw [h1, h2]
    simp

theorem getnearest_eq_pyMinRange (l : List ℚ) (v : ℚ) (h : l ≠ []) :
    getnearest l v =
      some (pyMinRange (fun i => |l.getD i 0 - v|) l.length,
            l.getD (pyMinRange (fun i => |l.getD i 0 - v|) l.length) 0) := by
  obtain ⟨m, hm⟩ : ∃ m, l.length = m + 1 := by
    have := List.length_pos.mpr h
    exact ⟨l.length - 1, by omega⟩
  unfold getnearest
  rw [enum_eq_map_range l, hm, List.range_succ_eq_map, List.map_cons, List.map_map]
  have hright : pyMinRange (fun i => |l.getD i 0 - v|) (m + 1) =
      (List.range m).foldl
        (fun s i => minStep (fun i => |l.getD i 0 - v|) s (Nat.succ i)) 0 := by
    unfold pyMinRange
    rw [List.range_succ_eq_map, List.foldl_cons, List.foldl_map]
    have h0 : minStep (fun i => |l.getD i 0 - v|) 0 0 = 0 := by
      unfold minStep
      simp
    rw [h0]
  simp only [hm, hright]
  have hhom := List.foldl_hom (fun i => (i, l.getD i 0))
    (fun s i => minStep (fun i => |l.getD i 0 - v|) s (Nat.succ i))
    (fun (best : ℕ × ℚ) (i : ℕ) =>
      if |((i + 1, l.getD (i + 1) 0) : ℕ × ℚ).2 - v| < |best.2 - v|
      then ((i + 1, l.getD (i + 1) 0) : ℕ × ℚ) else best)
    (List.range m) 0
    (by
      intro x y
      simp only [minStep]
      split
      · rfl
      · rfl)
  rw [List.foldl_map]
  exact congrArg some hhom

/-- C10: getnearest returns the full (index, element) pair selected by `min` over the
enumerated iterable — the first pair whose element minimizes abs(element - value) —
rather than a bare integer index (despite its docstring saying it returns an int). -/
theorem getnearest_returns_pair (l : List ℚ) (v : ℚ) (h : l ≠ []) :
    ∃ p : ℕ × ℚ, getnearest l v = some p ∧
      p.1 < l.length ∧ l.getD p.1 0 = p.2 ∧
      (∀ i < l.length, |p.2 - v| ≤ |l.getD i 0 - v|) ∧
      (∀ q < p.1, |p.2 - v| < |l.getD q 0 - v|) := by
  have hlen : 0 < l.length := List.length_pos.mpr h
  obtain ⟨ha, hb, hc⟩ := pyMinRange_spec (fun i => |l.getD i 0 - v|) l.length hlen
  refine ⟨_, getnearest_eq_pyMinRange l v h, ha, rfl, ?_, ?_⟩
  · exact hb
  · exact hc

theorem getnearest_returns_pair_witness :
    (([4, 2, 9] : List ℚ) ≠ []) ∧ getnearest [4, 2, 9] 1 = some (1, 2) ∧
    (∃ p : ℕ × ℚ, getnearest [4, 2, 9] 1 = some p ∧
      p.1 < ([4, 2, 9] : List ℚ).length ∧ ([4, 2, 9] : List ℚ).getD p.1 0 = p.2 ∧
      (∀ i < ([4, 2, 9] : List ℚ).length, |p.2 - 1| ≤ |([4, 2, 9] : List ℚ).getD i 0 - 1|) ∧
      (∀ q < p.1, |p.2 - 1| < |([4, 2, 9] : List ℚ).getD q 0 - 1|)) :=
  ⟨by decide, by decide, getnearest_returns_pair [4, 2, 9] 1 (by decide)⟩

/-! ### IEEE-style scalars and numpy array primitives -/

/-- A numpy float64 scalar of the embedding.  `nan` stands for any non-finite
result (NaN or an infinity): numpy produces these with a RuntimeWarning where
plain Python scalars would raise `ZeroDivisionError`; the embedded code never
branches on which non-finite value occurred, so they are collapsed.  `uninit`
is a cell of `np.empty` that has not yet been written. -/
inductive PyVal where
  | num : ℚ → PyVal
  | nan : PyVal
  | uninit : PyVal
  deriving DecidableEq, Repr

def pyAdd : PyVal → PyVal → PyVal
  | .num a, .num b => .num (a + b)
  | _, _ => .nan

def pySub : PyVal → PyVal → PyVal
  | .num a, .num b => .num (a - b)
  | _, _ => .nan

def pyMul : PyVal → PyVal → PyVal
  | .num a, .num b => .num (a * b)
  | _, _ => .nan

/-- numpy float64 division: division by zero yields a non-finite value (with a
RuntimeWarning), never a `ZeroDivisionError`. -/
def pyDiv : PyVal → PyVal → PyVal
  | .num a, .num b => if b = 0 then .nan else .num (a / b)
  | _, _ => .nan

/-- Python slice `l[start:stop]` for non-negative bounds: clamps to the list
length and is empty when `start ≥ stop`. -/
def pySlice {α : Type} (l : List α) (start stop : ℕ) : List α := (l.take stop).drop start

/-- numpy slice assignment `a[start:stop] = rhs`: the target slice and the
right-hand side must have the same length, except that a length-1 right-hand
side broadcasts; any other mismatch raises `ValueError` (could not broadcast). -/
def sliceAssign (a : List PyVal) (start stop : ℕ) (rhs : List PyVal) :
    Except PyErr (List PyVal) :=
  let tlen := (pySlice a start stop).length
  if rhs.length = tlen then
    .ok (a.take start ++ rhs ++ a.drop (start + tlen))
  else if rhs.length = 1 then
    .ok (a.take start ++ List.replicate tlen (rhs.headD .nan) ++ a.drop (start + tlen))
  else
    .error .valueError

/-- A `Spectrum` as `linear_correction` consumes it: a measurement series whose
label index is its wavelength list (same length, positionally paired). -/
structure PySpectrum where
  wavelengths : List ℚ
  values : List ℚ
  deriving DecidableEq, Repr

/-- pandas `Series.loc[label]` on a float index: exact label lookup, `KeyError`
when absent.  The spectra of this development have unique wavelength labels, so
the first match is the only match. -/
def PySpectrum.loc (s : PySpectrum) (w : ℚ) : Except PyErr ℚ :=
  match s.wavelengths.findIdx? (fun x => x == w) with
  | some i =>
    match s.values.get? i with
    | some v => .ok v
    | none => .error .keyError
  | none => .error .keyError

/-- Result of `linear_correction`: either the literal `[0, 0]` sentinel produced
by the bare `except` around `size = wv_idx[-1] - wv_idx[0]`, or the pair of
`corrected` and `continuum` arrays. -/
inductive LinResult where
  | sentinel
  | arrays (corrected continuum : List PyVal)
  deriving DecidableEq, Repr

/-- Embedding of `linear_correction(spectrum, nodes=None)` from
`libpysat/utils/utils.py`.  Notes on the Python semantics it mirrors:
the default node list is `[wv_array[0], wv_array[-1]]` (IndexError on an empty
axis); `getbandnumbers` runs `min` over an empty range and raises `ValueError`
when the wavelength list is empty and nodes are requested; the bare
`except` around `size = wv_idx[-1] - wv_idx[0]` turns an empty node list into
the `[0, 0]` sentinel; `np.empty` of a negative size raises `ValueError`;
`y1`, `y2` are numpy float64 scalars, so `(y2-y1)/(w2-w1)` with `w2 == w1`
yields a non-finite value instead of raising, which makes the
`except ZeroDivisionError` zero-fill branch unreachable; the slice assignments
into `corrected`/`continuum` raise `ValueError` on a broadcast length mismatch;
and the `finally` block threads each stop into the next start. -/
def linear_correction (spectrum : PySpectrum) (nodes? : Option (List ℚ)) :
    Except PyErr LinResult := do
  let wv := spectrum.wavelengths
  let nodes ← match nodes? with
    | none =>
      if wv = [] then throw PyErr.indexError
      else pure [wv.headD 0, wv.getLastD 0]
    | some ns => pure ns
  if wv.length = 0 ∧ nodes ≠ [] then throw PyErr.valueError
  let wv_idx := getbandnumbers wv nodes
  match wv_idx with
  | [] => return LinResult.sentinel
  | w0 :: _ =>
    let size : ℤ := (wv_idx.getLastD 0 : ℤ) - (w0 : ℤ)
    if size < 0 then throw PyErr.valueError
    let sizeN := size.toNat
    let node_pairs := nodes.zip nodes.tail
    let result ← node_pairs.enum.foldlM
      (fun (st : ℕ × List PyVal × List PyVal) (ip : ℕ × ℚ × ℚ) => do
        let (start, corrected, continuum) := st
        let (i, w1, w2) := ip
        let stop := wv_idx.getD (i + 1) 0
        let y1 ← spectrum.loc w1
        let y2 ← spectrum.loc w2
        let m := pyDiv (.num (y2 - y1)) (.num (w2 - w1))
        let b := pySub (.num y1) (pyMul m (.num w1))
        let y := (pySlice wv start stop).map (fun w => pyAdd (pyMul m (.num w)) b)
        let sv := pySlice spectrum.values start stop
        if sv.length ≠ y.length then throw PyErr.valueError
        let rhs := (sv.zip y).map (fun p => pyDiv (.num p.1) p.2)
        let corrected2 ← sliceAssign corrected start stop rhs
        let continuum2 ← sliceAssign continuum start stop y
        pure (stop, corrected2, continuum2))
      ((0 : ℕ), List.replicate sizeN PyVal.uninit, List.replicate sizeN PyVal.uninit)
    return LinResult.arrays result.2.1 result.2.2

/-- The (start, stop) index pairs traversed by the correction loop of
`linear_correction`: start begins at 0, the i-th stop is `wv_idx[i+1]`, and the
`finally` block threads each stop into the next start. -/
def chainSegments : ℕ → List ℕ → List (ℕ × ℕ)
  | _, [] => []
  | s, t :: ts => (s, t) :: chainSegments t ts

/-- The segment list of `linear_correction` for resolved node positions `wv_idx`. -/
def segmentsOf (wv_idx : List ℕ) : List (ℕ × ℕ) := chainSegments 0 wv_idx.tail

/-! ### Concrete linear_correction behaviour (C2, C3, C7) -/

/-- The five-point example spectrum of the specification: measurements
[10, 8, 6, 9, 10] at wavelengths [400, 450, 500, 550, 600]. -/
def exampleSpectrum : PySpectrum := ⟨[400, 450, 500, 550, 600], [10, 8, 6, 9, 10]⟩

/-- C2 (counterexample): on the example spectrum with nodes [400, 600],
linear_correction does NOT return five corrected values [1.0, 0.8, 0.6, 0.9, 1.0]
with continuum 10 at all five positions: the allocated arrays have size
`wv_idx[-1] - wv_idx[0] = 4`, so the last position is excluded. -/
theorem linear_correction_example_not_five :
    linear_correction exampleSpectrum (some [400, 600]) ≠
      Except.ok (LinResult.arrays
        [.num 1, .num (4/5), .num (3/5), .num (9/10), .num 1]
        [.num 10, .num 10, .num 10, .num 10, .num 10]) := by decide

/-- C2 (amended): on the example spectrum with nodes [400, 600], linear_correction
returns corrected values [1.0, 0.8, 0.6, 0.9] and continuum 10 over the half-open
index range [0, 4); the final wavelength position is not part of the output. -/
theorem linear_correction_example_halfopen :
    linear_correction exampleSpectrum (some [400, 600]) =
      Except.ok (LinResult.arrays
        [.num 1, .num (4/5), .num (3/5), .num (9/10)]
        [.num 10, .num 10, .num 10, .num 10]) := by decide

/-- C3: a zero-width node pair is NOT zero-filled.  With nodes [500, 500] the
slope division `(y2-y1)/(w2-w1)` is numpy float64 scalar arithmetic, which on a
zero divisor yields a non-finite value with a warning instead of raising
`ZeroDivisionError`, so the `except ZeroDivisionError` zero-fill branch of the
source is unreachable; the subsequent attempt to assign two values into the
empty allocated array raises an uncaught broadcast `ValueError`.  With nodes
[400, 400] no exception happens, but only because every slice involved is
empty: the function returns two empty arrays, and no value is set to zero. -/
theorem linear_correction_zero_width_raises :
    linear_correction exampleSpectrum (some [500, 500]) = Except.error PyErr.valueError ∧
    linear_correction exampleSpectrum (some [400, 400]) =
      Except.ok (LinResult.arrays [] []) := by decide

/-- C7 (counterexample): with a single resolvable node the function does not
return the [0, 0] sentinel; it returns a pair of empty arrays
(`size = wv_idx[-1] - wv_idx[0] = 0` succeeds, so the bare `except` that
produces the sentinel is not reached, and the pair loop body never runs). -/
theorem linear_correction_single_node_not_sentinel :
    linear_correction exampleSpectrum (some [400]) ≠ Except.ok LinResult.sentinel ∧
    linear_correction exampleSpectrum (some [400]) =
      Except.ok (LinResult.arrays [] []) := by decide

/-- C7 (amended): with an empty node list, `wv_idx[-1]` raises IndexError inside
the try, the bare `except` catches it, and the [0, 0] sentinel is returned for
every spectrum; with exactly one resolvable node the function instead returns a
pair of empty arrays.  Neither case raises. -/
theorem linear_correction_few_nodes (s : PySpectrum) (w : ℚ)
    (h : s.wavelengths ≠ []) :
    linear_correction s (some []) = Except.ok LinResult.sentinel ∧
    linear_correction s (some [w]) = Except.ok (LinResult.arrays [] []) := by
  constructor
  · simp [linear_correction, getbandnumbers]
    rfl
  · simp only [linear_correction, getbandnumbers, List.map_cons, List.map_nil]
    have hlen : s.wavelengths.length ≠ 0 := by
      simpa using fun hc => h (List.length_eq_zero.mp hc)
    simp [hlen]
    rfl

theorem linear_correction_few_nodes_witness :
    (exampleSpectrum.wavelengths ≠ []) ∧
    (linear_correction exampleSpectrum (some []) = Except.ok LinResult.sentinel ∧
     linear_correction exampleSpectrum (some [470]) =
       Except.ok (LinResult.arrays [] [])) :=
  ⟨by decide, linear_correction_few_nodes exampleSpectrum 470 (by decide)⟩

/-! ### Segment structure of linear_correction (C4) -/

theorem chainSegments_start_le (s : ℕ) (ts : List ℕ)
    (hchain : List.Chain (· ≤ ·) s ts) :
    ∀ seg ∈ chainSegments s ts, s ≤ seg.1 := by
  induction ts generalizing s with
  | nil => intro seg hseg; simp [chainSegments] at hseg
  | cons t ts ih =>
    rw [List.chain_cons] at hchain
    intro seg hseg
    rcases List.mem_cons.mp hseg with hseg | hseg
    · subst hseg; simp
    · exact le_trans hchain.1 (ih t hchain.2 seg hseg)

theorem chain_le_getLastD (s : ℕ) (ts : List ℕ)
    (hchain : List.Chain (· ≤ ·) s ts) : s ≤ ts.getLastD s := by
  induction ts generalizing s with
  | nil => simp
  | cons t ts ih =>
    rw [List.chain_cons] at hchain
    rw [List.getLastD_cons]
    exact le_trans hchain.1 (ih t hchain.2)

theorem chainSegments_linked (s : ℕ) (ts : List ℕ) :
    ∀ i, i + 1 < (chainSegments s ts).length →
      ((chainSegments s ts).getD i (0, 0)).2 =
        ((chainSegments s ts).getD (i + 1) (0, 0)).1 := by
  induction ts generalizing s with
  | nil => intro i hi; simp [chainSegments] at hi
  | cons t ts ih =>
    intro i hi
    cases i with
    | zero =>
      cases ts with
      | nil => simp [chainSegments] at hi
      | cons u ts' => simp [chainSegments]
    | succ i =>
      simp only [chainSegments, List.getD_cons_succ] at hi ⊢
      exact ih t i (by simpa [chainSegments] using hi)

theorem chainSegments_cover (s : ℕ) (ts : List ℕ)
    (hchain : List.Chain (· ≤ ·) s ts) (j : ℕ) :
    (∃ seg ∈ chainSegments s ts, seg.1 ≤ j ∧ j < seg.2) ↔
      (s ≤ j ∧ j < ts.getLastD s) := by
  induction ts generalizing s with
  | nil =>
    simp [chainSegments]
  | cons t ts ih =>
    rw [List.chain_cons] at hchain
    have hlast : t ≤ ts.getLastD t := chain_le_getLastD t ts hchain.2
    rw [List.getLastD_cons]
    constructor
    · rintro ⟨seg, hseg, hj1, hj2⟩
      rcases List.mem_cons.mp hseg with hseg | hseg
      · subst hseg
        simp only at hj1 hj2
        omega
      · have := (ih t hchain.2).mp ⟨seg, hseg, hj1, hj2⟩
        omega
    · rintro ⟨hs, hj⟩
      by_cases hjt : j < t
      · exact ⟨(s, t), by simp [chainSegments], hs, hjt⟩
      · obtain ⟨seg, hseg, h1, h2⟩ := (ih t hchain.2).mpr ⟨by omega, hj⟩
        exact ⟨seg, List.mem_cons.mpr (Or.inr hseg), h1, h2⟩

theorem chainSegments_disjoint (s : ℕ) (ts : List ℕ)
    (hchain : List.Chain (· ≤ ·) s ts) :
    List.Pairwise (fun a b => ∀ j, ¬(a.1 ≤ j ∧ j < a.2 ∧ b.1 ≤ j ∧ j < b.2))
      (chainSegments s ts) := by
  induction ts generalizing s with
  | nil => simp [chainSegments]
  | cons t ts ih =>
    rw [List.chain_cons] at hchain
    refine List.Pairwise.cons ?_ (ih t hchain.2)
    intro seg hseg j hj
    have hstart := chainSegments_start_le t ts hchain.2 seg hseg
    simp only at hj
    omega

/-- C4 (counterexample): the segment ranges of the correction loop do not in
general cover `[0, len(wavelengths)-1)`, and for a non-monotone node list they
are not pairwise disjoint.  With nodes [400, 500] the only segment is [0, 2), so
index 3 < 4 is never written; with nodes [400, 550, 400, 600] the segments
[0, 3) and [0, 4) both contain index 0. -/
theorem linear_segments_claim_fails :
    (¬ (∃ seg ∈ segmentsOf (getbandnumbers [400, 450, 500, 550, 600] [400, 500]),
          seg.1 ≤ 3 ∧ 3 < seg.2) ∧
      3 < ([400, 450, 500, 550, 600] : List ℚ).length - 1) ∧
    (∃ a ∈ segmentsOf (getbandnumbers [400, 450, 500, 550, 600] [400, 550, 400, 600]),
     ∃ b ∈ segmentsOf (getbandnumbers [400, 450, 500, 550, 600] [400, 550, 400, 600]),
       a ≠ b ∧ ∃ j, a.1 ≤ j ∧ j < a.2 ∧ b.1 ≤ j ∧ j < b.2) := by
  constructor
  · constructor
    · decide
    · decide
  · refine ⟨(0, 3), by decide, (0, 4), by decide, by decide, 0, by decide⟩

/-- C4 (amended): provided the resolved node positions are non-decreasing and
the last node resolves to position `len(wavelengths) - 1`, the segments of the
correction loop are chained (each stop is the next start), pairwise disjoint,
and their union is exactly the half-open range `[0, len(wavelengths) - 1)`, so
every index there is written exactly once. -/
theorem linear_segments_partition_amended (wv nodes : List ℚ)
    (h2 : 2 ≤ nodes.length)
    (hchain : List.Chain' (· ≤ ·) (getbandnumbers wv nodes))
    (hlast : (getbandnumbers wv nodes).getLast? = some (wv.length - 1)) :
    (∀ i, i + 1 < (segmentsOf (getbandnumbers wv nodes)).length →
      ((segmentsOf (getbandnumbers wv nodes)).getD i (0, 0)).2 =
        ((segmentsOf (getbandnumbers wv nodes)).getD (i + 1) (0, 0)).1) ∧
    List.Pairwise (fun a b => ∀ j, ¬(a.1 ≤ j ∧ j < a.2 ∧ b.1 ≤ j ∧ j < b.2))
      (segmentsOf (getbandnumbers wv nodes)) ∧
    (∀ j, (∃ seg ∈ segmentsOf (getbandnumbers wv nodes), seg.1 ≤ j ∧ j < seg.2) ↔
      j < wv.length - 1) := by
  have hlen : (getbandnumbers wv nodes).length = nodes.length := by
    simp [getbandnumbers]
  obtain ⟨a, t, rest, hshape⟩ :
      ∃ a t rest, getbandnumbers wv nodes = a :: t :: rest := by
    match hx : getbandnumbers wv nodes with
    | [] => rw [hx] at hlen; simp at hlen; omega
    | [a] => rw [hx] at hlen; simp at hlen; omega
    | a :: t :: rest => exact ⟨a, t, rest, rfl⟩
  rw [hshape] at hchain hlast ⊢
  have hchainF : List.Chain (· ≤ ·) 0 (t :: rest) := by
    have : List.Chain (· ≤ ·) t rest := by
      have h' : List.Chain' (· ≤ ·) (t :: rest) := hchain.tail
      exact h'
    exact List.chain_cons.mpr ⟨Nat.zero_le t, this⟩
  have hsegs : segmentsOf (a :: t :: rest) = chainSegments 0 (t :: rest) := rfl
  rw [hsegs]
  have hlastD : (t :: rest).getLastD 0 = wv.length - 1 := by
    have h1 : (a :: t :: rest).getLast? = (t :: rest).getLast? := by
      simp [List.getLast?_cons_cons]
    rw [h1] at hlast
    rw [List.getLastD_eq_getLast?, hlast]
    rfl
  refine ⟨chainSegments_linked 0 (t :: rest), chainSegments_disjoint 0 (t :: rest) hchainF, ?_⟩
  intro j
  rw [chainSegments_cover 0 (t :: rest) hchainF j, hlastD]
  omega

theorem linear_segments_partition_amended_witness :
    (2 ≤ ([400, 500, 600] : List ℚ).length ∧
     List.Chain' (· ≤ ·) (getbandnumbers [400, 450, 500, 550, 600] [400, 500, 600]) ∧
     (getbandnumbers [400, 450, 500, 550, 600] [400, 500, 600]).getLast? =
       some (([400, 450, 500, 550, 600] : List ℚ).length - 1)) ∧
    ((∀ i, i + 1 <
        (segmentsOf (getbandnumbers [400, 450, 500, 550, 600] [400, 500, 600])).length →
      ((segmentsOf (getbandnumbers [400, 450, 500, 550, 600] [400, 500, 600])).getD i (0, 0)).2 =
        ((segmentsOf (getbandnumbers [400, 450, 500, 550, 600] [400, 500, 600])).getD
          (i + 1) (0, 0)).1) ∧
    List.Pairwise (fun a b => ∀ j, ¬(a.1 ≤ j ∧ j < a.2 ∧ b.1 ≤ j ∧ j < b.2))
      (segmentsOf (getbandnumbers [400, 450, 500, 550, 600] [400, 500, 600])) ∧
    (∀ j, (∃ seg ∈ segmentsOf (getbandnumbers [400, 450, 500, 550, 600] [400, 500, 600]),
        seg.1 ≤ j ∧ j < seg.2) ↔
      j < ([400, 450, 500, 550, 600] : List ℚ).length - 1)) :=
  ⟨⟨by decide,
    by
      have h : getbandnumbers [400, 450, 500, 550, 600] [400, 500, 600] = [0, 2, 4] := by decide
      rw [h]
      simp [List.chain'_cons],
    by decide⟩,
    linear_segments_partition_amended [400, 450, 500, 550, 600] [400, 500, 600]
      (by decide)
      (by
        have h : getbandnumbers [400, 450, 500, 550, 600] [400, 500, 600] = [0, 2, 4] := by decide
        rw [h]
        simp [List.chain'_cons])
      (by decide)⟩

/-! ### Container construction defaults (C9), from libpysat/spectral/spectra.py -/

/-- Tolerance stored by `Spectrum.__init__(self, *args, wavelengths=[], metadata=[],
tolerance=.5, **kwargs)`: the keyword default is 0.5; `none` models a call that
does not pass the keyword. -/
def spectrumInitTolerance (tolerance : Option ℚ) : ℚ := tolerance.getD (1/2)

/-- Tolerance stored by `_SpectraDataFrame.__init__(self, *args, wavelengths=[],
metadata=[], tolerance=0, **kwargs)`: the keyword default is 0. -/
def spectraDataFrameInitTolerance (tolerance : Option ℚ) : ℚ := tolerance.getD 0

/-- Tolerance stored by `_SpectraArray.__new__(cls, ndarray, wavelengths=[],
waxis=None, tolerance=.5)`: the keyword default is 0.5. -/
def spectraArrayNewTolerance (tolerance : Option ℚ) : ℚ := tolerance.getD (1/2)

/-- C9 (counterexample): a spectral DataFrame constructed without an explicit
tolerance argument stores tolerance 0, not 0.5. -/
theorem spectraDataFrame_default_tolerance_not_half :
    spectraDataFrameInitTolerance none = 0 ∧ ¬ spectraDataFrameInitTolerance none = 1/2 := by
  refine ⟨rfl, ?_⟩
  intro h
  rw [spectraDataFrameInitTolerance] at h
  simp at h

/-- C9 (amended): `Spectrum` and `_SpectraArray` constructed without an explicit
tolerance argument have tolerance 0.5, but `_SpectraDataFrame.__init__` declares
the keyword default `tolerance=0`, so a spectral DataFrame constructed without
an explicit tolerance has tolerance 0. -/
theorem default_tolerances :
    spectrumInitTolerance none = 1/2 ∧
    spectraArrayNewTolerance none = 1/2 ∧
    spectraDataFrameInitTolerance none = 0 := ⟨rfl, rfl, rfl⟩

/-! ### _SpectraArray.__getitem__ fallback (C8) -/

/-- The state of a one-dimensional `_SpectraArray`: the data buffer, the
wavelength index attached to it, the designated wavelength axis and the stored
tolerance. -/
structure SpectraArrayModel where
  data : List ℚ
  wavelengths : List ℚ
  waxis : Option ℕ
  tolerance : ℚ
  deriving DecidableEq, Repr

/-- Result of `_SpectraArray.__getitem__` on a single integer key: either the
wrapped sub-array carrying a cropped one-element wavelength axis (the labelled
path), or the bare positional value produced by falling back to
`super().__getitem__` (the `except Exception` path). -/
inductive GetItemOutcome where
  | cropped (data : List ℚ) (wavelengths : List ℚ)
  | plain (value : ℚ)
  deriving DecidableEq, Repr

/-- Embedding of `_SpectraArray.__getitem__` from `libpysat/spectral/spectra.py`
for a single (non-iterable) integer key on a one-dimensional array.  The `try`
block, for `waxis == 0`, crops the wavelength axis with
`self.wavelengths[keys]` (IndexError when the key is outside the wavelength
index) and wraps the positional value with the one-element axis
`[wavelengths]`; for any other waxis it wraps the positional value with the
uncropped axis.  Any exception in the block is caught by `except Exception` and
answered by plain positional indexing `super().__getitem__(keys)`, whose own
failure (key out of range of the data) propagates. -/
def spectraArrayGetitemInt (arr : SpectraArrayModel) (key : ℕ) :
    Except PyErr GetItemOutcome :=
  let attempt : Except PyErr GetItemOutcome :=
    if arr.waxis = some 0 then
      match arr.wavelengths.get? key with
      | some w =>
        match arr.data.get? key with
        | some v => .ok (.cropped [v] [w])
        | none => .error .indexError
      | none => .error .indexError
    else
      match arr.data.get? key with
      | some v => .ok (.cropped [v] arr.wavelengths)
      | none => .error .indexError
  match attempt with
  | .ok r => .ok r
  | .error _ =>
    match arr.data.get? key with
    | some v => .ok (.plain v)
    | none => .error .indexError

/-- C8 (counterexample): an empty-axis labelled access does NOT surface an
error.  On a 3-element array whose wavelength axis is empty (waxis = 0), the
lookup `self.wavelengths[1]` fails inside the `try`, yet `__getitem__` answers
`2` by silently falling back to plain positional indexing. -/
theorem spectraArray_getitem_swallows_failure :
    spectraArrayGetitemInt ⟨[1, 2, 3], [], some 0, 1/2⟩ 1 =
      Except.ok (GetItemOutcome.plain 2) := by decide

/-- C8 (amended): whenever the label-path of `_SpectraArray.__getitem__` fails
(here: the key is outside the wavelength index, e.g. an empty axis) but the
positional access succeeds, the `except Exception` handler catches the failure
and silently answers with plain positional indexing; the failure is not
surfaced to the caller. -/
theorem spectraArray_getitem_fallback (arr : SpectraArrayModel) (key : ℕ) (v : ℚ)
    (hax : arr.waxis = some 0)
    (hfail : arr.wavelengths.get? key = none)
    (hdata : arr.data.get? key = some v) :
    spectraArrayGetitemInt arr key = Except.ok (GetItemOutcome.plain v) := by
  unfold spectraArrayGetitemInt
  rw [if_pos hax, hfail, hdata]

theorem spectraArray_getitem_fallback_witness :
    ((⟨[1, 2, 3], [], some 0, 1/2⟩ : SpectraArrayModel).waxis = some 0 ∧
     (⟨[1, 2, 3], [], some 0, 1/2⟩ : SpectraArrayModel).wavelengths.get? 2 = none ∧
     (⟨[1, 2, 3], [], some 0, 1/2⟩ : SpectraArrayModel).data.get? 2 = some 3) ∧
    spectraArrayGetitemInt ⟨[1, 2, 3], [], some 0, 1/2⟩ 2 =
      Except.ok (GetItemOutcome.plain 3) :=
  ⟨⟨rfl, rfl, rfl⟩,
    spectraArray_getitem_fallback ⟨[1, 2, 3], [], some 0, 1/2⟩ 2 3 rfl rfl rfl⟩

/-! ### regression_correction (C6) -/

/-- `scipy.stats.linregress(wavelengths, reflectance)` slope and intercept: the
ordinary least-squares line.  scipy computes slope = cov(x, y)/var(x) and
intercept = mean(y) - slope * mean(x); multiplying numerator and denominator of
the slope by n^2 gives the equivalent closed form used here. -/
def linregress (x y : List ℚ) : ℚ × ℚ :=
  let n : ℚ := x.length
  let sx := x.sum
  let sy := y.sum
  let sxx := (x.map (fun t => t * t)).sum
  let sxy := ((x.zip y).map (fun p => p.1 * p.2)).sum
  let m := (n * sxy - sx * sy) / (n * sxx - sx * sx)
  let b := (sy - m * sx) / n
  (m, b)

/-- Embedding of `regression_correction(wavelengths, reflectance)` from
`libpysat/utils/utils.py`: fit the regression line, evaluate
`m * wavelengths + b` pointwise as the continuum, return
`reflectance / regressed_continuum` (numpy elementwise division) and the
continuum. -/
def regression_correction (wavelengths reflectance : List ℚ) :
    List PyVal × List ℚ :=
  let m := (linregress wavelengths reflectance).1
  let b := (linregress wavelengths reflectance).2
  let continuum := wavelengths.map (fun w => m * w + b)
  ((reflectance.zip continuum).map (fun p => pyDiv (.num p.1) (.num p.2)), continuum)

/-- Sum of squared residuals of the line (m, b) over the paired data. -/
def ssr (x y : List ℚ) (m b : ℚ) : ℚ :=
  ((x.zip y).map (fun p => (p.2 - (m * p.1 + b))^2)).sum

theorem sum_map_resid (ps : List (ℚ × ℚ)) (m b : ℚ) :
    (ps.map (fun p => p.2 - (m * p.1 + b))).sum =
      (ps.map Prod.snd).sum - m * (ps.map Prod.fst).sum - b * ps.length := by
  induction ps with
  | nil => simp
  | cons p ps ih =>
    simp only [List.map_cons, List.sum_cons, List.length_cons, ih]
    push_cast
    ring

theorem sum_map_resid_mul (ps : List (ℚ × ℚ)) (m b : ℚ) :
    (ps.map (fun p => (p.2 - (m * p.1 + b)) * p.1)).sum =
      (ps.map (fun p => p.1 * p.2)).sum - m * (ps.map (fun p => p.1 * p.1)).sum -
        b * (ps.map Prod.fst).sum := by
  induction ps with
  | nil => simp
  | cons p ps ih =>
    simp only [List.map_cons, List.sum_cons, ih]
    ring

theorem ssr_decomp (ps : List (ℚ × ℚ)) (m b m' b' : ℚ) :
    (ps.map (fun p => (p.2 - (m' * p.1 + b'))^2)).sum =
      (ps.map (fun p => (p.2 - (m * p.1 + b))^2)).sum
      + 2 * (m - m') * (ps.map (fun p => (p.2 - (m * p.1 + b)) * p.1)).sum
      + 2 * (b - b') * (ps.map (fun p => p.2 - (m * p.1 + b))).sum
      + (ps.map (fun p => ((m - m') * p.1 + (b - b'))^2)).sum := by
  induction ps with
  | nil => simp
  | cons p ps ih =>
    simp only [List.map_cons, List.sum_cons, ih]
    ring

/-- C6: regression_correction computes the ordinary least-squares line of
reflectance versus wavelength — the computed (slope, intercept) minimize the sum
of squared residuals over every competing line — returns the continuum
`m * wavelength + b` evaluated pointwise and corrected = reflectance divided by
that continuum; in particular `regression_correction([1,2,3,4],[2,4,6,8])` has
slope 2, intercept 0, continuum [2,4,6,8] and corrected [1,1,1,1].  The
hypothesis is that the wavelengths are not all identical (non-zero variance),
without which the least-squares line does not exist. -/
theorem regression_correction_ols (x y : List ℚ)
    (hlen : x.length = y.length)
    (hden : (x.length : ℚ) * (x.map (fun t => t * t)).sum - x.sum * x.sum ≠ 0) :
    (∀ m' b', ssr x y (linregress x y).1 (linregress x y).2 ≤ ssr x y m' b') ∧
    (regression_correction x y).2 =
      x.map (fun w => (linregress x y).1 * w + (linregress x y).2) ∧
    (regression_correction x y).1 =
      (y.zip (regression_correction x y).2).map (fun p => pyDiv (.num p.1) (.num p.2)) ∧
    linregress [1, 2, 3, 4] [2, 4, 6, 8] = (2, 0) ∧
    regression_correction [1, 2, 3, 4] [2, 4, 6, 8] =
      ([.num 1, .num 1, .num 1, .num 1], [2, 4, 6, 8]) := by
  have hn : (x.length : ℚ) ≠ 0 := by
    intro hc
    apply hden
    have hx : x = [] := by
      have := Nat.cast_eq_zero.mp hc
      exact List.length_eq_zero.mp this
    subst hx
    simp
  have hplen : (x.zip y).length = x.length := by
    rw [List.length_zip, hlen, min_self]
  have hfst : (x.zip y).map Prod.fst = x := List.map_fst_zip x y (le_of_eq hlen)
  have hsnd : (x.zip y).map Prod.snd = y := List.map_snd_zip x y (ge_of_eq hlen)
  have hsqs : ((x.zip y).map (fun p => p.1 * p.1)).sum = (x.map (fun t => t * t)).sum := by
    have : (x.zip y).map (fun p => p.1 * p.1) =
        ((x.zip y).map Prod.fst).map (fun t => t * t) := by
      rw [List.map_map]
      rfl
    rw [this, hfst]
  have hm : (linregress x y).1 =
      ((x.length : ℚ) * ((x.zip y).map (fun p => p.1 * p.2)).sum - x.sum * y.sum) /
        ((x.length : ℚ) * (x.map (fun t => t * t)).sum - x.sum * x.sum) := rfl
  have hb : (linregress x y).2 =
      (y.sum - (linregress x y).1 * x.sum) / (x.length : ℚ) := rfl
  have hmD : (linregress x y).1 *
      ((x.length : ℚ) * (x.map (fun t => t * t)).sum - x.sum * x.sum) =
      (x.length : ℚ) * ((x.zip y).map (fun p => p.1 * p.2)).sum - x.sum * y.sum := by
    rw [hm]
    field_simp
  have hbn : (linregress x y).2 * (x.length : ℚ) = y.sum - (linregress x y).1 * x.sum := by
    rw [hb]
    field_simp
  have hsum_e : ((x.zip y).map
      (fun p => p.2 - ((linregress x y).1 * p.1 + (linregress x y).2))).sum = 0 := by
    rw [sum_map_resid, hfst, hsnd, hplen]
    linear_combination (-1 : ℚ) * hbn
  have hsum_ex : ((x.zip y).map
      (fun p => (p.2 - ((linregress x y).1 * p.1 + (linregress x y).2)) * p.1)).sum = 0 := by
    rw [sum_map_resid_mul, hfst, hsqs]
    have hkey : (x.length : ℚ) *
        (((x.zip y).map (fun p => p.1 * p.2)).sum -
          (linregress x y).1 * (x.map (fun t => t * t)).sum -
          (linregress x y).2 * x.sum) = 0 := by
      linear_combination (-1 : ℚ) * hmD - x.sum * hbn
    rcases mul_eq_zero.mp hkey with h | h
    · exact absurd h hn
    · exact h
  refine ⟨?_, rfl, rfl, by decide, by decide⟩
  intro m' b'
  unfold ssr
  rw [ssr_decomp (x.zip y) (linregress x y).1 (linregress x y).2 m' b',
    hsum_e, hsum_ex]
  have hnn : 0 ≤ ((x.zip y).map
      (fun p => (((linregress x y).1 - m') * p.1 + ((linregress x y).2 - b'))^2)).sum := by
    apply List.sum_nonneg
    intro q hq
    obtain ⟨p, _, hp⟩ := List.mem_map.mp hq
    rw [← hp]
    exact sq_nonneg _
  linarith

theorem regression_correction_ols_witness :
    (([1, 2, 3, 4] : List ℚ).length = ([2, 4, 6, 8] : List ℚ).length ∧
      ((([1, 2, 3, 4] : List ℚ).length : ℚ) *
        (([1, 2, 3, 4] : List ℚ).map (fun t => t * t)).sum -
        ([1, 2, 3, 4] : List ℚ).sum * ([1, 2, 3, 4] : List ℚ).sum ≠ 0)) ∧
    ((∀ m' b',
        ssr [1, 2, 3, 4] [2, 4, 6, 8]
          (linregress [1, 2, 3, 4] [2, 4, 6, 8]).1
          (linregress [1, 2, 3, 4] [2, 4, 6, 8]).2 ≤ ssr [1, 2, 3, 4] [2, 4, 6, 8] m' b') ∧
      (regression_correction [1, 2, 3, 4] [2, 4, 6, 8]).2 =
        ([1, 2, 3, 4] : List ℚ).map
          (fun w => (linregress [1, 2, 3, 4] [2, 4, 6, 8]).1 * w +
            (linregress [1, 2, 3, 4] [2, 4, 6, 8]).2) ∧
      (regression_correction [1, 2, 3, 4] [2, 4, 6, 8]).1 =
        (([2, 4, 6, 8] : List ℚ).zip (regression_correction [1, 2, 3, 4] [2, 4, 6, 8]).2).map
          (fun p => pyDiv (.num p.1) (.num p.2)) ∧
      linregress [1, 2, 3, 4] [2, 4, 6, 8] = (2, 0) ∧
      regression_correction [1, 2, 3, 4] [2, 4, 6, 8] =
        ([.num 1, .num 1, .num 1, .num 1], [2, 4, 6, 8])) :=
  ⟨⟨by decide, by decide⟩,
    regression_correction_ols [1, 2, 3, 4] [2, 4, 6, 8] (by decide) (by decide)⟩

/-! ### horgan_correction (C5) -/

/-- `np.where((wavelength > ref - window) & (wavelength < ref + window))[0]`:
the indices, in increasing order, whose wavelength lies strictly inside the
window. -/
def npWhereWindow (wavelength : List ℚ) (ref window : ℚ) : List ℕ :=
  (List.range wavelength.length).filter
    (fun i => decide (ref - window < wavelength.getD i 0) &&
              decide (wavelength.getD i 0 < ref + window))

/-- `ndarray.argmax()`: the first index attaining the maximum.  numpy scans
left to right replacing the current best only on a strictly greater value,
which is Python's first-minimum fold on the negated key. -/
def npArgmax (l : List ℚ) : ℕ := pyMinRange (fun i => -(l.getD i 0)) l.length

/-- The control-point locator of horgan_correction:
`reflectance[window].argmax() + window[0]`.  This is the position of the window
maximum only when the window indices are consecutive. -/
def horganMax (reflectance : List ℚ) (window : List ℕ) : ℕ :=
  npArgmax (window.map (fun i => reflectance.getD i 0)) + window.headD 0

/-- `np.polyval(np.polyfit(x, y, 2), w)` for three pairwise distinct abscissae:
the unique interpolating quadratic (the least-squares residual of the fit is
zero there), written in Lagrange form. -/
def lagrange2 (x1 x2 x3 y1 y2 y3 w : ℚ) : ℚ :=
  y1 * ((w - x2) * (w - x3)) / ((x1 - x2) * (x1 - x3)) +
  y2 * ((w - x1) * (w - x3)) / ((x2 - x1) * (x2 - x3)) +
  y3 * ((w - x1) * (w - x2)) / ((x3 - x1) * (x3 - x2))

/-- The `while iterating:` loop of horgan_correction with its fuel, iteration
counter, continuation flag and last computed result.  The body recomputes the
same fit (nothing the fit depends on changes inside the loop), unconditionally
clears the flag, and bails out with a convergence warning at `itercounter == 9`;
the source enters it with `itercounter = 0` and `iterating = True`. -/
def horganLoop {α : Type} (fit : α) : ℕ → ℕ → Bool → Option α → Option α
  | 0, _, _, r => r
  | fuel + 1, itercounter, iterating, r =>
    if iterating then
      if itercounter = 9 then some fit
      else horganLoop fit fuel (itercounter + 1) false (some fit)
    else r

/-- The loop terminates after a single effective pass: the body clears the
continuation flag, so the fit of the first iteration is the result. -/
theorem horganLoop_single_pass {α : Type} (fit : α) (fuel : ℕ) (hf : 2 ≤ fuel) :
    horganLoop fit fuel 0 true none = some fit := by
  obtain ⟨k, rfl⟩ : ∃ k, fuel = k + 2 := ⟨fuel - 2, by omega⟩
  simp [horganLoop]

/-- Embedding of `horgan_correction(reflectance, wavelength, a, b, c, window)`
from `libpysat/utils/utils.py`.  numpy raises `ValueError` when `argmax` runs
on an empty window selection; `np.polyfit` on coincident abscissae is
rank-deficient and outside this model (flagged as an error); elementwise
division requires equal shapes. -/
def horgan_correction (reflectance wavelength : List ℚ) (a b c window : ℚ) :
    Except PyErr (List PyVal × List ℚ) := do
  let lowerwindow := npWhereWindow wavelength a window
  let middlewindow := npWhereWindow wavelength b window
  let upperwindow := npWhereWindow wavelength c window
  if lowerwindow.isEmpty ∨ middlewindow.isEmpty ∨ upperwindow.isEmpty then
    throw PyErr.valueError
  let maxa := horganMax reflectance lowerwindow
  let maxb := horganMax reflectance middlewindow
  let maxc := horganMax reflectance upperwindow
  let x1 := wavelength.getD maxa 0
  let x2 := wavelength.getD maxb 0
  let x3 := wavelength.getD maxc 0
  let y1 := reflectance.getD maxa 0
  let y2 := reflectance.getD maxb 0
  let y3 := reflectance.getD maxc 0
  if x1 = x2 ∨ x1 = x3 ∨ x2 = x3 then throw PyErr.valueError
  let continuum := wavelength.map (fun w => lagrange2 x1 x2 x3 y1 y2 y3 w)
  if reflectance.length ≠ continuum.length then throw PyErr.valueError
  let corrected := (reflectance.zip continuum).map (fun p => pyDiv (.num p.1) (.num p.2))
  match horganLoop (corrected, continuum) 11 0 true none with
  | some r => return r
  | none => throw PyErr.valueError

/-- C5 (counterexample): for an unsorted wavelength array the control-point
locator `reflectance[window].argmax() + window[0]` does not return a position
inside the window.  With wavelengths [400, 700, 450], reference 450 and
half-width 60, the window selects indices {0, 2}; the locator answers
position 1 (wavelength 700), which is not in the window at all. -/
theorem horgan_locator_not_in_window :
    npWhereWindow [400, 700, 450] 450 60 = [0, 2] ∧
    horganMax [1, 9, 2] (npWhereWindow [400, 700, 450] 450 60) = 1 ∧
    1 ∉ npWhereWindow [400, 700, 450] 450 60 := by decide

theorem lagrange2_interp (x1 x2 x3 y1 y2 y3 : ℚ)
    (h12 : x1 ≠ x2) (h13 : x1 ≠ x3) (h23 : x2 ≠ x3) :
    lagrange2 x1 x2 x3 y1 y2 y3 x1 = y1 ∧
    lagrange2 x1 x2 x3 y1 y2 y3 x2 = y2 ∧
    lagrange2 x1 x2 x3 y1 y2 y3 x3 = y3 := by
  have d12 : x1 - x2 ≠ 0 := sub_ne_zero.mpr h12
  have d13 : x1 - x3 ≠ 0 := sub_ne_zero.mpr h13
  have d21 : x2 - x1 ≠ 0 := sub_ne_zero.mpr (Ne.symm h12)
  have d23 : x2 - x3 ≠ 0 := sub_ne_zero.mpr h23
  have d31 : x3 - x1 ≠ 0 := sub_ne_zero.mpr (Ne.symm h13)
  have d32 : x3 - x2 ≠ 0 := sub_ne_zero.mpr (Ne.symm h23)
  refine ⟨?_, ?_, ?_⟩ <;>
    · unfold lagrange2
      field_simp

theorem getD_eq_getElem_of_lt {α : Type} (l : List α) (d : α) {n : ℕ}
    (h : n < l.length) : l.getD n d = l[n] := by
  rw [List.getD_eq_getElem?_getD, List.getElem?_eq_getElem h]
  rfl

theorem getD_map_of_lt {α β : Type} (l : List α) (f : α → β) (dα : α) (dβ : β)
    {i : ℕ} (h : i < l.length) :
    (l.map f).getD i dβ = f (l.getD i dα) := by
  rw [getD_eq_getElem_of_lt _ dβ (by simpa using h), getD_eq_getElem_of_lt l dα h,
    List.getElem_map]

theorem sorted_getD_lt {α : Type} [Preorder α] (F : List α) (d : α)
    (hs : List.Sorted (· < ·) F) {i j : ℕ} (hij : i < j) (hj : j < F.length) :
    F.getD i d < F.getD j d := by
  have hi : i < F.length := lt_trans hij hj
  rw [getD_eq_getElem_of_lt F d hi, getD_eq_getElem_of_lt F d hj]
  exact List.pairwise_iff_get.mp hs ⟨i, hi⟩ ⟨j, hj⟩ hij

/-- A strictly sorted list of naturals that is closed under taking values between
two members consists of consecutive values. -/
theorem sorted_interval_closed_consecutive (F : List ℕ)
    (hsort : List.Sorted (· < ·) F)
    (hint : ∀ u w j, u ∈ F → w ∈ F → u ≤ j → j ≤ w → j ∈ F) :
    ∀ m < F.length, F.getD m 0 = F.headD 0 + m := by
  intro m
  induction m with
  | zero =>
    intro h0
    cases F with
    | nil => simp at h0
    | cons a F' => simp
  | succ m ih =>
    intro hm1
    have hm : m < F.length := by omega
    have hIH := ih hm
    have hlt : F.getD m 0 < F.getD (m + 1) 0 :=
      sorted_getD_lt F 0 hsort (by omega) hm1
    by_contra hne
    have hgt : F.getD m 0 + 1 < F.getD (m + 1) 0 := by omega
    have humem : F.getD m 0 ∈ F := by
      rw [getD_eq_getElem_of_lt F 0 hm]
      exact List.getElem_mem hm
    have hvmem : F.getD (m + 1) 0 ∈ F := by
      rw [getD_eq_getElem_of_lt F 0 hm1]
      exact List.getElem_mem hm1
    have hmid : F.getD m 0 + 1 ∈ F := hint _ _ _ humem hvmem (by omega) (by omega)
    obtain ⟨⟨k, hk⟩, hkeq⟩ := List.mem_iff_get.mp hmid
    have hkval : F.getD k 0 = F.getD m 0 + 1 := by
      rw [getD_eq_getElem_of_lt F 0 hk]
      exact hkeq
    have h1 : m < k := by
      rcases Nat.lt_or_ge k m with hklt | hkge
      · have hcon := sorted_getD_lt F 0 hsort hklt hm
        omega
      · rcases Nat.eq_or_lt_of_le hkge with heq | hlt2
        · rw [← heq] at hkval
          omega
        · exact hlt2
    have h2 : k < m + 1 := by
      rcases Nat.lt_or_ge (m + 1) k with hlt2 | hge2
      · have hcon := sorted_getD_lt F 0 hsort hlt2 hk
        omega
      · rcases Nat.eq_or_lt_of_le hge2 with heq | hlt3
        · rw [heq] at hkval
          omega
        · exact hlt3
    omega

theorem npWhereWindow_sorted (wavelength : List ℚ) (ref window : ℚ) :
    List.Sorted (· < ·) (npWhereWindow wavelength ref window) :=
  (List.sorted_lt_range wavelength.length).filter _

theorem npWhereWindow_interval (wavelength : List ℚ) (ref window : ℚ)
    (hsort : List.Sorted (· < ·) wavelength) :
    ∀ u w j, u ∈ npWhereWindow wavelength ref window →
      w ∈ npWhereWindow wavelength ref window → u ≤ j → j ≤ w →
      j ∈ npWhereWindow wavelength ref window := by
  intro u w j hu hw huj hjw
  rw [npWhereWindow, List.mem_filter, List.mem_range] at hu hw ⊢
  obtain ⟨hun, hup⟩ := hu
  obtain ⟨hwn, hwp⟩ := hw
  simp only [Bool.and_eq_true, decide_eq_true_eq] at hup hwp ⊢
  have hjn : j < wavelength.length := by omega
  have hmono1 : wavelength.getD u 0 ≤ wavelength.getD j 0 := by
    rcases Nat.eq_or_lt_of_le huj with h | h
    · rw [h]
    · exact le_of_lt (sorted_getD_lt wavelength 0 hsort h hjn)
  have hmono2 : wavelength.getD j 0 ≤ wavelength.getD w 0 := by
    rcases Nat.eq_or_lt_of_le hjw with h | h
    · rw [h]
    · exact le_of_lt (sorted_getD_lt wavelength 0 hsort h hwn)
  exact ⟨hjn, lt_of_lt_of_le hup.1 hmono1, lt_of_le_of_lt hmono2 hwp.2⟩

theorem npWhereWindow_consecutive (wavelength : List ℚ) (ref window : ℚ)
    (hsort : List.Sorted (· < ·) wavelength) :
    ∀ m < (npWhereWindow wavelength ref window).length,
      (npWhereWindow wavelength ref window).getD m 0 =
        (npWhereWindow wavelength ref window).headD 0 + m :=
  sorted_interval_closed_consecutive (npWhereWindow wavelength ref window)
    (npWhereWindow_sorted wavelength ref window)
    (npWhereWindow_interval wavelength ref window hsort)

/-- `reflectance[window].argmax() + window[0]` is a member of the window that
maximizes the reflectance over it, provided the window indices are
consecutive. -/
theorem horganMax_spec (reflectance : List ℚ) (F : List ℕ)
    (hne : F ≠ [])
    (hconsec : ∀ m < F.length, F.getD m 0 = F.headD 0 + m) :
    horganMax reflectance F ∈ F ∧
      ∀ j ∈ F, reflectance.getD j 0 ≤ reflectance.getD (horganMax reflectance F) 0 := by
  have hlen : 0 < F.length := List.length_pos.mpr hne
  have hmaplen : (F.map (fun i => reflectance.getD i 0)).length = F.length :=
    List.length_map F _
  obtain ⟨h1, h2, _⟩ := pyMinRange_spec
    (fun i => -((F.map (fun i => reflectance.getD i 0)).getD i 0))
    ((F.map (fun i => reflectance.getD i 0)).length)
    (by omega)
  have hKlt : npArgmax (F.map (fun i => reflectance.getD i 0)) < F.length := by
    unfold npArgmax
    omega
  have hmaxval : horganMax reflectance F =
      F.getD (npArgmax (F.map (fun i => reflectance.getD i 0))) 0 := by
    rw [hconsec _ hKlt, horganMax]
    omega
  constructor
  · rw [hmaxval, getD_eq_getElem_of_lt F 0 hKlt]
    exact List.getElem_mem hKlt
  · intro j hj
    obtain ⟨⟨idx, hidx⟩, hidxeq⟩ := List.mem_iff_get.mp hj
    have hjval : j = F.getD idx 0 := by
      rw [getD_eq_getElem_of_lt F 0 hidx]
      exact hidxeq.symm
    have hidx2 : idx < (F.map (fun i => reflectance.getD i 0)).length := by omega
    have hle := h2 idx hidx2
    rw [getD_map_of_lt F (fun i => reflectance.getD i 0) 0 0 hidx] at hle
    have hKm : (F.map (fun i => reflectance.getD i 0)).getD
        (pyMinRange (fun i => -((F.map (fun i => reflectance.getD i 0)).getD i 0))
          ((F.map (fun i => reflectance.getD i 0)).length)) 0 =
        reflectance.getD (F.getD (npArgmax (F.map (fun i => reflectance.getD i 0))) 0) 0 :=
      getD_map_of_lt F (fun i => reflectance.getD i 0) 0 0 hKlt
    rw [hKm] at hle
    rw [hjval, hmaxval]
    linarith

/-- The index `maxa`/`maxb`/`maxc` located by horgan_correction for reference
wavelength `ref`: `reflectance[window].argmax() + window[0]`. -/
def horganPoint (reflectance wavelength : List ℚ) (ref window : ℚ) : ℕ :=
  horganMax reflectance (npWhereWindow wavelength ref window)

/-- The continuum computed by horgan_correction: the quadratic through the three
located control points evaluated over the full wavelength array. -/
def horganContinuum (reflectance wavelength : List ℚ) (a b c window : ℚ) : List ℚ :=
  wavelength.map (fun w => lagrange2
    (wavelength.getD (horganPoint reflectance wavelength a window) 0)
    (wavelength.getD (horganPoint reflectance wavelength b window) 0)
    (wavelength.getD (horganPoint reflectance wavelength c window) 0)
    (reflectance.getD (horganPoint reflectance wavelength a window) 0)
    (reflectance.getD (horganPoint reflectance wavelength b window) 0)
    (reflectance.getD (horganPoint reflectance wavelength c window) 0) w)

/-- C5 (amended): for a strictly ascending wavelength array, windows that each
select at least one sample, and pairwise distinct located control wavelengths
(so the quadratic fit is well posed), horgan_correction locates in each window a
position of maximum reflectance, fits the degree-2 polynomial through the three
control points exactly once (the bounded refit loop performs a single effective
pass), evaluates it over the full wavelength array as the continuum — which
passes through the three control points — and returns reflectance divided
pointwise by that continuum together with the continuum. -/
theorem horgan_correction_spec (reflectance wavelength : List ℚ) (a b c window : ℚ)
    (hsort : List.Sorted (· < ·) wavelength)
    (hlen : reflectance.length = wavelength.length)
    (hA : npWhereWindow wavelength a window ≠ [])
    (hB : npWhereWindow wavelength b window ≠ [])
    (hC : npWhereWindow wavelength c window ≠ [])
    (h12 : wavelength.getD (horganPoint reflectance wavelength a window) 0 ≠
      wavelength.getD (horganPoint reflectance wavelength b window) 0)
    (h13 : wavelength.getD (horganPoint reflectance wavelength a window) 0 ≠
      wavelength.getD (horganPoint reflectance wavelength c window) 0)
    (h23 : wavelength.getD (horganPoint reflectance wavelength b window) 0 ≠
      wavelength.getD (horganPoint reflectance wavelength c window) 0) :
    (horganPoint reflectance wavelength a window ∈ npWhereWindow wavelength a window ∧
      ∀ j ∈ npWhereWindow wavelength a window,
        reflectance.getD j 0 ≤
          reflectance.getD (horganPoint reflectance wavelength a window) 0) ∧
    (horganPoint reflectance wavelength b window ∈ npWhereWindow wavelength b window ∧
      ∀ j ∈ npWhereWindow wavelength b window,
        reflectance.getD j 0 ≤
          reflectance.getD (horganPoint reflectance wavelength b window) 0) ∧
    (horganPoint reflectance wavelength c window ∈ npWhereWindow wavelength c window ∧
      ∀ j ∈ npWhereWindow wavelength c window,
        reflectance.getD j 0 ≤
          reflectance.getD (horganPoint reflectance wavelength c window) 0) ∧
    horgan_correction reflectance wavelength a b c window =
      Except.ok
        ((reflectance.zip (horganContinuum reflectance wavelength a b c window)).map
            (fun p => pyDiv (.num p.1) (.num p.2)),
          horganContinuum reflectance wavelength a b c window) ∧
    (horganContinuum reflectance wavelength a b c window).getD
        (horganPoint reflectance wavelength a window) 0 =
      reflectance.getD (horganPoint reflectance wavelength a window) 0 ∧
    (horganContinuum reflectance wavelength a b c window).getD
        (horganPoint reflectance wavelength b window) 0 =
      reflectance.getD (horganPoint reflectance wavelength b window) 0 ∧
    (horganContinuum reflectance wavelength a b c window).getD
        (horganPoint reflectance wavelength c window) 0 =
      reflectance.getD (horganPoint reflectance wavelength c window) 0 ∧
    horganLoop
      ((reflectance.zip (horganContinuum reflectance wavelength a b c window)).map
          (fun p => pyDiv (.num p.1) (.num p.2)),
        horganContinuum reflectance wavelength a b c window) 11 0 true none =
      some
        ((reflectance.zip (horganContinuum reflectance wavelength a b c window)).map
            (fun p => pyDiv (.num p.1) (.num p.2)),
          horganContinuum reflectance wavelength a b c window) := by
  obtain ⟨hmemA, hmaxA⟩ := horganMax_spec reflectance _ hA
    (npWhereWindow_consecutive wavelength a window hsort)
  obtain ⟨hmemB, hmaxB⟩ := horganMax_spec reflectance _ hB
    (npWhereWindow_consecutive wavelength b window hsort)
  obtain ⟨hmemC, hmaxC⟩ := horganMax_spec reflectance _ hC
    (npWhereWindow_consecutive wavelength c window hsort)
  have hptA : horganPoint reflectance wavelength a window < wavelength.length := by
    have h := hmemA
    rw [npWhereWindow, List.mem_filter, List.mem_range] at h
    exact h.1
  have hptB : horganPoint reflectance wavelength b window < wavelength.length := by
    have h := hmemB
    rw [npWhereWindow, List.mem_filter, List.mem_range] at h
    exact h.1
  have hptC : horganPoint reflectance wavelength c window < wavelength.length := by
    have h := hmemC
    rw [npWhereWindow, List.mem_filter, List.mem_range] at h
    exact h.1
  obtain ⟨hi1, hi2, hi3⟩ := lagrange2_interp _ _ _ _ _ _ h12 h13 h23
  have hcontA : (horganContinuum reflectance wavelength a b c window).getD
      (horganPoint reflectance wavelength a window) 0 =
      reflectance.getD (horganPoint reflectance wavelength a window) 0 := by
    rw [horganContinuum, getD_map_of_lt wavelength _ 0 0 hptA]
    exact hi1
  have hcontB : (horganContinuum reflectance wavelength a b c window).getD
      (horganPoint reflectance wavelength b window) 0 =
      reflectance.getD (horganPoint reflectance wavelength b window) 0 := by
    rw [horganContinuum, getD_map_of_lt wavelength _ 0 0 hptB]
    exact hi2
  have hcontC : (horganContinuum reflectance wavelength a b c window).getD
      (horganPoint reflectance wavelength c window) 0 =
      reflectance.getD (horganPoint reflectance wavelength c window) 0 := by
    rw [horganContinuum, getD_map_of_lt wavelength _ 0 0 hptC]
    exact hi3
  refine ⟨⟨hmemA, hmaxA⟩, ⟨hmemB, hmaxB⟩, ⟨hmemC, hmaxC⟩, ?_, hcontA, hcontB, hcontC,
    horganLoop_single_pass _ 11 (by omega)⟩
  have hcond1 : ¬((npWhereWindow wavelength a window).isEmpty = true ∨
      (npWhereWindow wavelength b window).isEmpty = true ∨
      (npWhereWindow wavelength c window).isEmpty = true) := by
    simp only [List.isEmpty_iff]
    push_neg
    exact ⟨hA, hB, hC⟩
  have hcond2 : ¬(wavelength.getD (horganMax reflectance (npWhereWindow wavelength a window)) 0 =
        wavelength.getD (horganMax reflectance (npWhereWindow wavelength b window)) 0 ∨
      wavelength.getD (horganMax reflectance (npWhereWindow wavelength a window)) 0 =
        wavelength.getD (horganMax reflectance (npWhereWindow wavelength c window)) 0 ∨
      wavelength.getD (horganMax reflectance (npWhereWindow wavelength b window)) 0 =
        wavelength.getD (horganMax reflectance (npWhereWindow wavelength c window)) 0) := by
    push_neg
    exact ⟨h12, h13, h23⟩
  have hcond3 : ¬(reflectance.length ≠
      (wavelength.map (fun w => lagrange2
        (wavelength.getD (horganMax reflectance (npWhereWindow wavelength a window)) 0)
        (wavelength.getD (horganMax reflectance (npWhereWindow wavelength b window)) 0)
        (wavelength.getD (horganMax reflectance (npWhereWindow wavelength c window)) 0)
        (reflectance.getD (horganMax reflectance (npWhereWindow wavelength a window)) 0)
        (reflectance.getD (horganMax reflectance (npWhereWindow wavelength b window)) 0)
        (reflectance.getD (horganMax reflectance (npWhereWindow wavelength c window)) 0)
        w)).length) := by
    rw [List.length_map]
    omega
  rw [horgan_correction]
  simp only [if_neg hcond1, if_neg hcond2, if_neg hcond3]
  rw [horganLoop_single_pass _ 11 (by omega)]
  rfl

theorem horgan_correction_spec_witness :
    (List.Sorted (· < ·) ([1, 2, 3, 4, 5] : List ℚ) ∧
      ([1, 3, 2, 5, 4] : List ℚ).length = ([1, 2, 3, 4, 5] : List ℚ).length ∧
      npWhereWindow [1, 2, 3, 4, 5] 2 1 ≠ [] ∧
      npWhereWindow [1, 2, 3, 4, 5] 3 1 ≠ [] ∧
      npWhereWindow [1, 2, 3, 4, 5] (9/2) 1 ≠ []) ∧
    horgan_correction [1, 3, 2, 5, 4] [1, 2, 3, 4, 5] 2 3 (9/2) 1 =
      Except.ok ([.num (1/8), .num 1, .num 1, .num 1, .num (1/3)],
        [8, 3, 2, 5, 12]) := by
  refine ⟨⟨by decide, by decide, by decide, by decide, by decide⟩, ?_⟩
  have h := horgan_correction_spec [1, 3, 2, 5, 4] [1, 2, 3, 4, 5] 2 3 (9/2) 1
    (by decide) (by decide) (by decide) (by decide) (by decide)
    (by decide) (by decide) (by decide)
  have hok := h.2.2.2.1
  have hc : horganContinuum [1, 3, 2, 5, 4] [1, 2, 3, 4, 5] 2 3 (9/2) 1 =
      ([8, 3, 2, 5, 12] : List ℚ) := by decide
  rw [hc] at hok
  have hm : (([1, 3, 2, 5, 4] : List ℚ).zip ([8, 3, 2, 5, 12] : List ℚ)).map
      (fun p => pyDiv (.num p.1) (.num p.2)) =
      [.num (1/8), .num 1, .num 1, .num 1, .num (1/3)] := by decide
  rw [hm] at hok
  exact hok

end PySAT
